import Mathlib

set_option maxRecDepth 10000

/-
Verification of the neurogen decomposition engine (src/neurogen/mesh.py and
src/neurogen/encoder.py) against its natural-language specification.

Modelling conventions
  * Vertex coordinates are modelled as exact rationals (ℚ).  All arithmetic the
    claims depend on (linspace cell boundaries, quantizer scale/offset, header
    values) is exact in the source up to float rounding, which is deterministic
    and therefore irrelevant to the ordering / counting / byte-identity claims.
  * The IEEE-754 special-value behaviour of numpy (division by zero giving
    ±inf, inf * 0 giving nan) is modelled separately by the `QF` type, used for
    the claim about `scale_mesh` on a degenerate bounding box.
  * External collaborators that the spec declares out of scope (the trimesh
    simplifier/cleaner, the plane clipper `slice_mesh_plane`, and the Draco
    codec `encoder.encode_mesh`) are abstracted as an arbitrary `Collab`
    record of total functions; every structural theorem is proved for all
    collaborators.
  * File contents are modelled as lists of write tokens (`Token`): one token
    per 32-bit little-endian value written, plus raw fragment bytes.  The
    serialization of a token to bytes is fixed and deterministic, so equality /
    inequality of token lists mirrors byte-level equality of the files.
  * A run of a decomposition returns the final `WriterState` (manifest and
    fragment contents) together with an optional error.  The manifest file is
    opened with mode 'ab' (append), so a run receives the previous manifest
    contents `init`; the fragment file is opened with 'wb' (truncate).
-/

namespace Neurogen

/-- A 3-d vertex position, one rational per axis. -/
abbrev Vec3 := ℚ × ℚ × ℚ

/-- An integer grid-cell coordinate (x, y, z). -/
abbrev Cell := ℕ × ℕ × ℕ

/-- A mesh: vertex positions plus triangular faces (index triples).
Mirrors a `trimesh.Trimesh` as far as the decomposition engine inspects it. -/
structure Mesh where
  vertices : List Vec3
  faces : List (ℕ × ℕ × ℕ)
deriving DecidableEq

/-- The out-of-scope collaborators of the engine, as total abstract functions:
`simplify m n` models `m.simplify_quadratic_decimation(n)`, `clean` models
`clean_mesh`, `slice m normal origin` models
`trimesh.intersections.slice_mesh_plane(m, plane_normal, plane_origin)`, and
`encode qverts faces level` models `encoder.encode_mesh` on the quantized mesh
(returning the Draco byte buffer). -/
structure Collab where
  simplify : Mesh → ℕ → Mesh
  clean : Mesh → Mesh
  slice : Mesh → Vec3 → Vec3 → Mesh
  encode : List (ℕ × ℕ × ℕ) → List (ℕ × ℕ × ℕ) → ℕ → List ℕ

/-! ## Quantizer (class Quantize, identical in mesh.py and encoder.py)

The numpy arrays are componentwise; a single axis is modelled.  A full vertex
is quantized by applying the per-axis quantizer to each of its components. -/

/-- The state built by `Quantize.__init__`: `upper_bound`, `scale`, `offset`
for one axis. -/
structure Quantize where
  upper_bound : ℕ
  scale : ℚ
  offset : ℚ
deriving DecidableEq

/-- `Quantize.__init__`:
`upper_bound = np.iinfo(np.uint32).max >> (32 - quantization_bits)`,
`scale = upper_bound / fragment_shape`,
`offset = input_origin - fragment_origin + 0.5/scale` (one axis). -/
def mkQuantize (fragment_origin fragment_shape input_origin : ℚ)
    (quantization_bits : ℕ) : Quantize :=
  let ub : ℕ := (2 ^ 32 - 1) >>> (32 - quantization_bits)
  let sc : ℚ := (ub : ℚ) / fragment_shape
  { upper_bound := ub, scale := sc,
    offset := input_origin - fragment_origin + (1 / 2) / sc }

/-- `Quantize.__call__` on one component:
`np.minimum(upper_bound, np.maximum(0, scale*(v + offset))).astype(np.uint32)`.
The `astype(np.uint32)` conversion truncates the (always nonnegative, clamped)
float toward zero, i.e. takes its floor; the value is at most `upper_bound`
< 2^32, so no wrap-around occurs. -/
def quantizeVal (q : Quantize) (v : ℚ) : ℕ :=
  (Int.floor (min (q.upper_bound : ℚ) (max 0 (q.scale * (v + q.offset))))).toNat

/-- Clamp as written in the spec: `clamp(lo, hi, x)`. -/
def clampSpec (lo hi x : ℤ) : ℤ := max lo (min hi x)

/-- Modelled from the spec's words (for comparison with the code): the spec
claims the quantizer returns `clamp(0, upper_bound, round(scale*(v+offset)))`
with rounding to the nearest integer before clamping. -/
def quantizeSpecRound (q : Quantize) (v : ℚ) : ℕ :=
  (clampSpec 0 q.upper_bound (round (q.scale * (v + q.offset)))).toNat

/-- The code's quantizer as a clamp of a floor (the shape the amended claim
states): `clamp(0, upper_bound, floor(scale*(v+offset)))`. -/
def quantizeFloorClamp (q : Quantize) (v : ℚ) : ℕ :=
  (clampSpec 0 q.upper_bound (Int.floor (q.scale * (v + q.offset)))).toNat

/-- Quantize all three components of a vertex at cell `c`, exactly as the call
sites do: `fragment_origin = (x,y,z)`, `fragment_shape = (1,1,1)`,
`input_origin = (0,0,0)`. -/
def quantCellVertex (bits : ℕ) (c : Cell) (v : Vec3) : ℕ × ℕ × ℕ :=
  (quantizeVal (mkQuantize (c.1 : ℚ) 1 0 bits) v.1,
   quantizeVal (mkQuantize (c.2.1 : ℚ) 1 0 bits) v.2.1,
   quantizeVal (mkQuantize (c.2.2 : ℚ) 1 0 bits) v.2.2)

/-! ## numpy max / min over an axis -/

/-- `np.max` of a list of rationals; `none` on an empty array (numpy raises
`ValueError` there). -/
def listMax : List ℚ → Option ℚ
  | [] => none
  | x :: xs => some (xs.foldl max x)

/-- `np.min` of a list of rationals; `none` on an empty array. -/
def listMin : List ℚ → Option ℚ
  | [] => none
  | x :: xs => some (xs.foldl min x)

/-- `vertices.max(axis=0)`: componentwise maximum. -/
def vecMax (l : List Vec3) : Option Vec3 :=
  match listMax (l.map (·.1)), listMax (l.map (·.2.1)), listMax (l.map (·.2.2)) with
  | some a, some b, some c => some (a, b, c)
  | _, _, _ => none

/-- `vertices.min(axis=0)`: componentwise minimum. -/
def vecMin (l : List Vec3) : Option Vec3 :=
  match listMin (l.map (·.1)), listMin (l.map (·.2.1)), listMin (l.map (·.2.2)) with
  | some a, some b, some c => some (a, b, c)
  | _, _, _ => none

/-! ## scale_mesh

Two models.  `scale_mesh` is the exact-rational model used inside the runs
(its division is only reached with a nondegenerate bounding box there, where
rational and float division agree up to rounding).  `scaleAxisFloat` models
the IEEE-754 special values produced by numpy when the bounding box is flat on
an axis: `scale / 0.0 = ±inf` and `inf * 0.0 = nan`. -/

/-- `scale_mesh(mesh, scale)` over exact rationals:
`max_nodes = scale/(maxval-minval)`, `verts_scaled = max_nodes*(vertices-minval)`
per axis; `none` when the mesh has no vertices (numpy `max` raises). -/
def scale_mesh (m : Mesh) (scale : ℚ) : Option Mesh :=
  match vecMax m.vertices, vecMin m.vertices with
  | some maxv, some minv =>
      some { m with vertices := m.vertices.map (fun v =>
        (scale / (maxv.1 - minv.1) * (v.1 - minv.1),
         scale / (maxv.2.1 - minv.2.1) * (v.2.1 - minv.2.1),
         scale / (maxv.2.2 - minv.2.2) * (v.2.2 - minv.2.2))) }
  | _, _ => none

/-- An IEEE-754 double restricted to the cases the degenerate `scale_mesh`
claim exercises: a finite value (carried exactly as a rational), the two
infinities, and nan. -/
inductive QF where
  | fin (q : ℚ)
  | pinf
  | ninf
  | nan
deriving DecidableEq

/-- IEEE division for the cases reachable in `scale_mesh`: a finite numerator
over zero gives a signed infinity (nan for 0/0); all remaining mixed cases
are unreachable here and collapse to nan. -/
def qfDiv : QF → QF → QF
  | .fin a, .fin b =>
      if b = 0 then (if 0 < a then .pinf else if a < 0 then .ninf else .nan)
      else .fin (a / b)
  | _, _ => .nan

/-- IEEE multiplication for the cases reachable in `scale_mesh`: finite times
finite is exact; an infinity times zero is nan, an infinity times a nonzero
finite keeps the (signed) infinity; remaining cases collapse to nan. -/
def qfMul : QF → QF → QF
  | .fin a, .fin b => .fin (a * b)
  | .pinf, .fin b => if 0 < b then .pinf else if b < 0 then .ninf else .nan
  | .ninf, .fin b => if 0 < b then .ninf else if b < 0 then .pinf else .nan
  | _, _ => .nan

/-- `scale_mesh` on the coordinates of one axis, with float special-value
semantics: `max_nodes = scale/(max-min)` and `max_nodes*(v-min)` per vertex.
`none` models the numpy ValueError on an empty vertex array. -/
def scaleAxisFloat (coords : List ℚ) (scale : ℚ) : Option (List QF) :=
  match listMax coords, listMin coords with
  | some maxv, some minv =>
      let max_nodes := qfDiv (.fin scale) (.fin (maxv - minv))
      some (coords.map (fun v => qfMul max_nodes (.fin (v - minv))))
  | _, _ => none

/-- `scale_mesh` with float special-value semantics, all three axes. -/
def scaleMeshFloat (m : Mesh) (scale : ℚ) :
    Option (List QF × List QF × List QF) :=
  match scaleAxisFloat (m.vertices.map (·.1)) scale,
        scaleAxisFloat (m.vertices.map (·.2.1)) scale,
        scaleAxisFloat (m.vertices.map (·.2.2)) scale with
  | some a, some b, some c => some (a, b, c)
  | _, _, _ => none

/-! ## The buggy guard of encoder.py's fulloctree_decomposition

encoder.py line 218:
`if (quantization_bits != 10) or (quantization_bits != 16): raise ValueError`.
The function raises exactly when this proposition is true. -/

/-- The raise condition of encoder.py's `fulloctree_decomposition`. -/
def encoderFulloctreeGuard (quantization_bits : ℤ) : Bool :=
  decide (quantization_bits ≠ 10) || decide (quantization_bits ≠ 16)

/-! ## File model -/

/-- One write to a binary file: a little-endian 32-bit float (carried by its
exact pre-rounding value — float32 rounding is deterministic, so token
equality mirrors byte equality) or a little-endian uint32.  Raw Draco buffers
go to the separate fragment stream, kept as plain byte lists. -/
inductive Token where
  | f32 (q : ℚ)
  | u32 (n : ℕ)
deriving DecidableEq

/-- The contents of the two output files of one segment: the manifest
(`<segment_id>.index`) as tokens, the fragment stream (`<segment_id>`) as
bytes. -/
structure WriterState where
  manifest : List Token
  fragment : List ℕ
deriving DecidableEq

/-- Python exceptions reachable in the modelled code: the failed
`assert` on `quantization_bits`, numpy's `ValueError` on `max`/`min` of an
empty array, and a model-only marker for a `generate_mesh_dataframe` loop
that does not stop within the supplied fuel (the Python loop would simply
never return). -/
inductive Err where
  | assertionError
  | valueError
  | fuelExhausted
deriving DecidableEq

/-- The manifest header written by both mesh.py writers before any LOD block:
`chunk_shape` (3 × f32, `(max_mesh_vertex - min_mesh_vertex)/num_lods`),
`grid_origin` (3 × f32), `num_lods` (u32), `lod_scales` (`2^i`, num_lods ×
f32), `vertex_offsets` (3·num_lods × f32, all zero), and
`num_fragments_per_lod` (`np.flip(np.power(8, lods))`, num_lods × u32). -/
def headerTokens (num_lods : ℕ) (maxv minv : Vec3) : List Token :=
  [Token.f32 ((maxv.1 - minv.1) / (num_lods : ℚ)),
   Token.f32 ((maxv.2.1 - minv.2.1) / (num_lods : ℚ)),
   Token.f32 ((maxv.2.2 - minv.2.2) / (num_lods : ℚ))]
  ++ [Token.f32 minv.1, Token.f32 minv.2.1, Token.f32 minv.2.2]
  ++ [Token.u32 num_lods]
  ++ (List.range num_lods).map (fun i => Token.f32 ((2 : ℚ) ^ i))
  ++ (List.range (3 * num_lods)).map (fun _ => Token.f32 0)
  ++ ((List.range num_lods).reverse).map (fun i => Token.u32 (8 ^ i))

/-- `num_faces_left[i] = num_faces // (num_lods/scales[i])**2` (numpy floor
division on floats). -/
def numFacesLeft (num_faces num_lods i : ℕ) : ℕ :=
  (Int.floor ((num_faces : ℚ) / ((num_lods : ℚ) / (2 : ℚ) ^ i) ^ 2)).toNat

/-! ## The per-LOD cell loop -/

/-- The grid cells of one LOD in the visitation order of the three nested
`for` loops: `x` outer, `y` middle, `z` inner. -/
def cellList (n : ℕ) : List Cell :=
  (List.range n).flatMap (fun x =>
    (List.range n).flatMap (fun y =>
      (List.range n).map (fun z => (x, y, z))))

/-- The three nested `for` loops of a writer, threading the `lod_pos`,
`lod_off` and fragment-file accumulators exactly as the Python code appends to
them: `step c` returns the recorded byte length and the bytes written to the
fragment file for cell `c`. -/
def lodLoop (n : ℕ) (step : Cell → ℕ × List ℕ) :
    List Cell × List ℕ × List ℕ :=
  (List.range n).foldl (fun a x =>
    (List.range n).foldl (fun a y =>
      (List.range n).foldl (fun a z =>
        let s := step (x, y, z)
        (a.1 ++ [(x, y, z)], a.2.1 ++ [s.1], a.2.2 ++ s.2)) a) a)
    ([], [], [])

/-- The result of one LOD iteration: the level index, the `lod_pos` list, the
`lod_off` list, and the bytes written to the fragment stream. -/
structure LodBlock where
  lod : ℕ
  pos : List Cell
  off : List ℕ
  frag : List ℕ
deriving DecidableEq

/-- Run the cell loop of level `i` (grid `2^i` nodes per axis). -/
def mkLodBlock (i : ℕ) (step : Cell → ℕ × List ℕ) : LodBlock :=
  let r := lodLoop (2 ^ i) step
  ⟨i, r.1, r.2.1, r.2.2⟩

/-- The manifest tokens of one per-LOD block:
`np.array(lod_pos).T` stored row-major (all x, then all y, then all z) as
uint32, followed by `lod_off` as uint32. -/
def blockTokens (b : LodBlock) : List Token :=
  b.pos.map (fun c => Token.u32 c.1)
  ++ b.pos.map (fun c => Token.u32 c.2.1)
  ++ b.pos.map (fun c => Token.u32 c.2.2)
  ++ b.off.map Token.u32

/-- Plane normal `nyz` (for slicing along x). -/
def nyz : Vec3 := (1, 0, 0)

/-- Plane normal `nxz` (for slicing along y). -/
def nxz : Vec3 := (0, 1, 0)

/-- Plane normal `nxy` (for slicing along z). -/
def nxy : Vec3 := (0, 0, 1)

/-- Scalar multiple of a plane normal (`nyz*x` etc.). -/
def smul (s : ℚ) (v : Vec3) : Vec3 := (s * v.1, s * v.2.1, s * v.2.2)

/-- Negation of a plane normal (`-nyz` etc.). -/
def neg3 (v : Vec3) : Vec3 := (-v.1, -v.2.1, -v.2.2)

/-- The six half-space slices producing the sub-mesh of cell `c` from the
scaled mesh.  The Python loop computes `mesh_x` once per `x` slab and `mesh_y`
once per `(x, y)` column and reuses them; slicing is pure, so recomputing them
per cell is equivalent. -/
def cellMesh (C : Collab) (scaled : Mesh) (c : Cell) : Mesh :=
  let mx := C.slice (C.slice scaled nyz (smul (c.1 : ℚ) nyz))
      (neg3 nyz) (smul ((c.1 : ℚ) + 1) nyz)
  let my := C.slice (C.slice mx nxz (smul (c.2.1 : ℚ) nxz))
      (neg3 nxz) (smul ((c.2.1 : ℚ) + 1) nxz)
  C.slice (C.slice my nxy (smul (c.2.2 : ℚ) nxy))
      (neg3 nxy) (smul ((c.2.2 : ℚ) + 1) nxy)

/-- The body of the innermost loop of `fulloctree_decomposition_mesh`:
`dracolen = 0; if len(mesh_z.vertices) > 0: quantize, encode, write draco`. -/
def fulloctreeStep (C : Collab) (bits clevel : ℕ) (scaled : Mesh) (c : Cell) :
    ℕ × List ℕ :=
  let mz := cellMesh C scaled c
  if 0 < mz.vertices.length then
    let d := C.encode (mz.vertices.map (quantCellVertex bits c)) mz.faces clevel
    (d.length, d)
  else (0, [])

/-- The body of the innermost loop of `density_decomposition_mesh`:
`dracolen = 0; if lod_dictionary[(x,y,z)] == True: if len(mesh_z.vertices) >
0: quantize, encode, write draco`. -/
def densityStep (flagf : Cell → Bool) (C : Collab) (bits clevel : ℕ)
    (scaled : Mesh) (c : Cell) : ℕ × List ℕ :=
  let mz := cellMesh C scaled c
  if flagf c then
    if 0 < mz.vertices.length then
      let d := C.encode (mz.vertices.map (quantCellVertex bits c)) mz.faces clevel
      (d.length, d)
    else (0, [])
  else (0, [])

/-- One full-octree LOD iteration: simplify to the level's face target, clean,
scale into `[0, 2^i]`, then run the cell loop.  `none` when the simplified
mesh has no vertices (`scale_mesh`'s numpy `max` raises). -/
def fulloctreeLodResult (C : Collab) (bits clevel num_faces num_lods : ℕ)
    (cleaned : Mesh) (i : ℕ) : Option LodBlock :=
  let decim := C.clean (C.simplify cleaned (numFacesLeft num_faces num_lods i))
  (scale_mesh decim ((2 : ℚ) ^ i)).map
    (fun scaled => mkLodBlock i (fulloctreeStep C bits clevel scaled))

/-- The scaled mesh of full-octree level `i` (simplify, clean, scale); the
default value is only reached for a level whose `scale_mesh` raised. -/
def fulloctreeScaled (C : Collab) (nf L : ℕ) (cleaned : Mesh) (i : ℕ) : Mesh :=
  (scale_mesh (C.clean (C.simplify cleaned (numFacesLeft nf L i)))
    ((2 : ℚ) ^ i)).getD ⟨[], []⟩

/-- One density LOD iteration; identical to the full-octree one except for the
per-cell activity flag `flagAt i`. -/
def densityLodResult (C : Collab) (bits clevel num_faces num_lods : ℕ)
    (cleaned : Mesh) (flagAt : ℕ → Cell → Bool) (i : ℕ) : Option LodBlock :=
  let decim := C.clean (C.simplify cleaned (numFacesLeft num_faces num_lods i))
  (scale_mesh decim ((2 : ℚ) ^ i)).map
    (fun scaled => mkLodBlock i (densityStep (flagAt i) C bits clevel scaled))

/-- The writer loop over the levels (already in file-write order).  A level
whose `scale_mesh` raises stops the run; everything written before the failure
stays in the files (no rollback). -/
def runLods (lodResult : ℕ → Option LodBlock) :
    List ℕ → WriterState → WriterState × Option Err
  | [], s => (s, none)
  | i :: rest, s =>
      match lodResult i with
      | none => (s, some .valueError)
      | some b =>
          runLods lodResult rest
            ⟨s.manifest ++ blockTokens b, s.fragment ++ b.frag⟩

/-- The `(f i).getD` view of a level's block used to state theorems about a
successful run. -/
def lodResultD (f : ℕ → Option LodBlock) (i : ℕ) : LodBlock :=
  (f i).getD ⟨i, [], [], []⟩

/-! ## fulloctree_decomposition_mesh (mesh.py) -/

/-- The configuration arguments of `fulloctree_decomposition_mesh`. -/
structure FulloctreeParams where
  num_lods : ℕ
  quantization_bits : ℕ
  compression_level : ℕ
deriving DecidableEq

/-- mesh.py `fulloctree_decomposition_mesh`: assert the bit width, take the
bounding box of the original vertices, clean the mesh, write the manifest
header, then write the LOD blocks from `num_lods - 1` down to `0`.  `init` is
the previous contents of the manifest file (opened with 'ab'); the fragment
file is truncated ('wb').  On an error before the files are opened the state
is `(init, [])`: nothing was written. -/
def fulloctree_decomposition_mesh (p : FulloctreeParams) (C : Collab) (m : Mesh)
    (init : List Token) : WriterState × Option Err :=
  if p.quantization_bits = 10 ∨ p.quantization_bits = 16 then
    match vecMax m.vertices, vecMin m.vertices with
    | some maxv, some minv =>
        let cleaned := C.clean m
        let nf := cleaned.faces.length
        runLods
          (fulloctreeLodResult C p.quantization_bits p.compression_level nf
            p.num_lods cleaned)
          ((List.range p.num_lods).reverse)
          ⟨init ++ headerTokens p.num_lods maxv minv, []⟩
    | _, _ => (⟨init, []⟩, some .valueError)
  else (⟨init, []⟩, some .assertionError)

/-! ## generate_mesh_dataframe (mesh.py) -/

/-- Number of original vertices falling in cell `c` of the `2^lod`-per-axis
grid over the bounding box `[minv, maxv]`:
`np.linspace(minv, maxv, 2^lod + 1)` gives the cell boundaries
`minv + j*(maxv-minv)/2^lod`, and a vertex is counted when
`split[x] <= v < split[x+1]` holds on all three axes. -/
def cellCount (verts : List Vec3) (minv maxv : Vec3) (lod : ℕ) (c : Cell) : ℕ :=
  let n : ℚ := ((2 : ℕ) ^ lod : ℕ)
  let sx : ℕ → ℚ := fun j => minv.1 + j * (maxv.1 - minv.1) / n
  let sy : ℕ → ℚ := fun j => minv.2.1 + j * (maxv.2.1 - minv.2.1) / n
  let sz : ℕ → ℚ := fun j => minv.2.2 + j * (maxv.2.2 - minv.2.2) / n
  verts.countP (fun v =>
    decide (sx c.1 ≤ v.1 ∧ v.1 < sx (c.1 + 1) ∧
      sy c.2.1 ≤ v.2.1 ∧ v.2.1 < sy (c.2.1 + 1) ∧
      sz c.2.2 ≤ v.2.2 ∧ v.2.2 < sz (c.2.2 + 1)))

/-- The stop test of the `while` loop: `(stopcounts <= minvertices).all()`. -/
def allBelow (verts : List Vec3) (minv maxv : Vec3) (mv lod : ℕ) : Bool :=
  (cellList (2 ^ lod)).all (fun c => cellCount verts minv maxv lod c ≤ mv)

/-- The `while reachlevel == False` loop, starting at `lod = 1`: return the
first level at which every cell's count is at or below `minvertices` (that
level's dictionary entry is deleted before returning).  `fuel` bounds the
number of iterations; the Python loop has no such bound and can run forever. -/
def gmdLoop (verts : List Vec3) (minv maxv : Vec3) (mv : ℕ) :
    ℕ → ℕ → Option ℕ
  | 0, _ => none
  | fuel + 1, lod =>
      if allBelow verts minv maxv mv lod then some lod
      else gmdLoop verts minv maxv mv fuel (lod + 1)

/-- The `num_lods` returned by mesh.py `generate_mesh_dataframe`: `1`
immediately when `minvertices > len(vertices)` (with only the root cell
active), else the first all-below level found by the loop. -/
def gmdNumLods (verts : List Vec3) (mv fuel : ℕ) : Option ℕ :=
  if verts.length < mv then some 1
  else
    match vecMax verts, vecMin verts with
    | some maxv, some minv => gmdLoop verts minv maxv mv fuel 1
    | _, _ => none

/-- The returned `dict_count` as a total function: level 0 holds only
`{(0,0,0): True}`; at a level `lod ≥ 1` a cell is flagged `True` exactly when
its vertex count exceeds `minvertices` (`countcompare > minvertices`), i.e.
when it needs further subdivision.  The writer reads the flag only for levels
`0 .. num_lods - 1` and cells of the level's grid. -/
def gmdFlag (verts : List Vec3) (minv maxv : Vec3) (mv lod : ℕ) (c : Cell) :
    Bool :=
  if lod = 0 then decide (c = (0, 0, 0))
  else decide (mv < cellCount verts minv maxv lod c)

/-! ## density_decomposition_mesh (mesh.py) -/

/-- The configuration arguments of `density_decomposition_mesh`. -/
structure DensityParams where
  minimum_vertices : ℕ
  quantization_bits : ℕ
  compression_level : ℕ
deriving DecidableEq

/-- mesh.py `density_decomposition_mesh`: assert the bit width, take the
bounding box of the original vertices (for the header), clean the mesh, run
`generate_mesh_dataframe` on the cleaned vertices, write the header, then the
LOD blocks from `num_lods - 1` down to `0`, materializing exactly the cells
whose dictionary flag is `True`. -/
def density_decomposition_mesh (p : DensityParams) (C : Collab) (m : Mesh)
    (init : List Token) (fuel : ℕ) : WriterState × Option Err :=
  if p.quantization_bits = 10 ∨ p.quantization_bits = 16 then
    match vecMax m.vertices, vecMin m.vertices with
    | some maxv, some minv =>
        let cleaned := C.clean m
        match gmdNumLods cleaned.vertices p.minimum_vertices fuel with
        | none => (⟨init, []⟩, some .fuelExhausted)
        | some L =>
            let cmaxv := (vecMax cleaned.vertices).getD (0, 0, 0)
            let cminv := (vecMin cleaned.vertices).getD (0, 0, 0)
            let flagAt := fun lod c =>
              gmdFlag cleaned.vertices cminv cmaxv p.minimum_vertices lod c
            let nf := cleaned.faces.length
            runLods
              (densityLodResult C p.quantization_bits p.compression_level nf L
                cleaned flagAt)
              ((List.range L).reverse)
              ⟨init ++ headerTokens L maxv minv, []⟩
    | _, _ => (⟨init, []⟩, some .valueError)
  else (⟨init, []⟩, some .assertionError)

/-! ## The array-taking entry point density_decomposition (mesh.py)

mesh.py lines 284-323: `density_decomposition(vertices, faces, segment_id,
directory, ...)` builds a Trimesh and then calls `density_decomposition_mesh`
by keyword, passing `mesh`, `segment_id`, `minimum_vertices`,
`quantization_bits`, `compression_level` and `mesh_subdirectory` — but not
`directory`, which has no default.  Python raises `TypeError` at the call
itself, before the callee body runs. -/

/-- A parameter of a Python function: its name and whether it has a default. -/
structure PyParam where
  pyname : String
  hasDefault : Bool
deriving DecidableEq

/-- Python raised at a modelled call site. -/
inductive PyError where
  | typeError
deriving DecidableEq

/-- The parameter list of `density_decomposition_mesh` (mesh.py lines
408-414). -/
def densityDecompositionMeshParams : List PyParam :=
  [⟨"mesh", false⟩, ⟨"segment_id", false⟩, ⟨"directory", false⟩,
   ⟨"minimum_vertices", true⟩, ⟨"quantization_bits", true⟩,
   ⟨"compression_level", true⟩, ⟨"mesh_subdirectory", true⟩]

/-- The keyword arguments supplied at the call site inside
`density_decomposition` (mesh.py lines 318-323). -/
def densityDecompositionCallKeywords : List String :=
  ["mesh", "segment_id", "minimum_vertices", "quantization_bits",
   "compression_level", "mesh_subdirectory"]

/-- Python keyword-call binding: succeeds iff every parameter without a
default receives an argument and every keyword names a parameter. -/
def keywordCallBinds (params : List PyParam) (kws : List String) : Bool :=
  params.all (fun p => p.hasDefault || kws.contains p.pyname)
    && kws.all (fun k => params.any (fun p => p.pyname = k))

/-- mesh.py `density_decomposition(vertices, faces, ...)`: build the Trimesh,
then perform the keyword call of `density_decomposition_mesh`; if the call
does not bind, Python raises `TypeError` and no decomposition work or file
I/O happens. -/
def density_decomposition (p : DensityParams) (C : Collab)
    (vertices : List Vec3) (faces : List (ℕ × ℕ × ℕ)) (fuel : ℕ) :
    Except PyError (WriterState × Option Err) :=
  let m : Mesh := ⟨vertices, faces⟩
  if keywordCallBinds densityDecompositionMeshParams
      densityDecompositionCallKeywords then
    .ok (density_decomposition_mesh p C m [] fuel)
  else
    .error .typeError

/-! ## Concrete instances used by counterexamples and witnesses -/

/-- A simple well-behaved collaborator instantiation: simplification and
cleaning change nothing, slicing keeps the whole mesh, and the codec encodes
every sub-mesh as the single byte `9`. -/
def Ctriv : Collab := ⟨fun m _ => m, id, fun m _ _ => m, fun _ _ _ => [9]⟩

/-- A two-vertex mesh spanning the unit cube. -/
def meshCube : Mesh := ⟨[(0, 0, 0), (1, 1, 1)], [(0, 1, 2)]⟩

/-- A mesh with a nonempty vertex set but zero faces. -/
def mesh8 : Mesh := ⟨[(0, 0, 0), (1, 1, 1)], []⟩

/-- Vertices whose density decomposition takes three levels with threshold 1:
the pair (0,0,0), (1,1,1) stays in one cell of the level-1 and level-2 grids
over the bounding box `[0, 8]^3` and only separates at level 3. -/
def verts9 : List Vec3 := [(0, 0, 0), (1, 1, 1), (8, 8, 8)]

/-- The mesh carrying `verts9`. -/
def mesh9 : Mesh := ⟨verts9, [(0, 1, 2)]⟩

/-- Vertices whose density decomposition takes two levels with threshold 1:
(0,0,0) and (3,3,3) share a level-1 cell and separate at level 2. -/
def verts3 : List Vec3 := [(0, 0, 0), (3, 3, 3), (8, 8, 8)]

/-- Full-octree parameters: one LOD, 16-bit quantization, compression 5. -/
def p4 : FulloctreeParams := ⟨1, 16, 5⟩

/-! ## Helper lemmas -/

/-- The quantizer never exceeds its `upper_bound`, whatever the scale and
offset are. -/
theorem quantizeVal_le (q : Quantize) (v : ℚ) :
    quantizeVal q v ≤ q.upper_bound := by
  unfold quantizeVal
  rw [Int.toNat_le]
  calc Int.floor (min ((q.upper_bound : ℚ)) (max 0 (q.scale * (v + q.offset))))
      ≤ Int.floor ((q.upper_bound : ℚ)) := Int.floor_le_floor (min_le_left _ _)
    _ = (q.upper_bound : ℤ) := Int.floor_natCast q.upper_bound

/-- Floor commutes with binary minimum. -/
theorem floor_min (a b : ℚ) :
    Int.floor (min a b) = min (Int.floor a) (Int.floor b) := by
  rcases le_total a b with h | h
  · rw [min_eq_left h, eq_comm, min_eq_left (Int.floor_le_floor h)]
  · rw [min_eq_right h, eq_comm, min_eq_right (Int.floor_le_floor h)]

/-- Floor commutes with binary maximum. -/
theorem floor_max (a b : ℚ) :
    Int.floor (max a b) = max (Int.floor a) (Int.floor b) := by
  rcases le_total a b with h | h
  · rw [max_eq_right h, eq_comm, max_eq_right (Int.floor_le_floor h)]
  · rw [max_eq_left h, eq_comm, max_eq_left (Int.floor_le_floor h)]

/-- Left fold of `max` over a constant list. -/
theorem foldl_max_const (c : ℚ) :
    ∀ (xs : List ℚ) (x : ℚ), x = c → (∀ y ∈ xs, y = c) → xs.foldl max x = c := by
  intro xs
  induction xs with
  | nil => intro x hx _; simpa using hx
  | cons a as ih =>
      intro x hx h
      have ha : a = c := h a (by simp)
      rw [List.foldl_cons]
      exact ih (max x a) (by rw [hx, ha, max_self]) (fun y hy => h y (by simp [hy]))

/-- Left fold of `min` over a constant list. -/
theorem foldl_min_const (c : ℚ) :
    ∀ (xs : List ℚ) (x : ℚ), x = c → (∀ y ∈ xs, y = c) → xs.foldl min x = c := by
  intro xs
  induction xs with
  | nil => intro x hx _; simpa using hx
  | cons a as ih =>
      intro x hx h
      have ha : a = c := h a (by simp)
      rw [List.foldl_cons]
      exact ih (min x a) (by rw [hx, ha, min_self]) (fun y hy => h y (by simp [hy]))

/-- numpy max of a nonempty constant list is that constant. -/
theorem listMax_const {c : ℚ} {l : List ℚ} (h1 : l ≠ [])
    (h2 : ∀ x ∈ l, x = c) : listMax l = some c := by
  cases l with
  | nil => exact absurd rfl h1
  | cons x xs =>
      rw [listMax]
      exact congrArg some
        (foldl_max_const c xs x (h2 x (by simp)) (fun y hy => h2 y (by simp [hy])))

/-- numpy min of a nonempty constant list is that constant. -/
theorem listMin_const {c : ℚ} {l : List ℚ} (h1 : l ≠ [])
    (h2 : ∀ x ∈ l, x = c) : listMin l = some c := by
  cases l with
  | nil => exact absurd rfl h1
  | cons x xs =>
      rw [listMin]
      exact congrArg some
        (foldl_min_const c xs x (h2 x (by simp)) (fun y hy => h2 y (by simp [hy])))

/-! ## Claims -/

/-- C1: `bits` must be exactly 10 or 16.  mesh.py's
`fulloctree_decomposition_mesh` enforces this with an `assert` placed before
any directory creation or file write, so an invalid width (here 7) fails with
nothing written, and the valid widths 10 and 16 proceed.  encoder.py's copy
however guards with `(quantization_bits != 10) or (quantization_bits != 16)`
— a tautology — so that copy raises `ValueError` for every width, including
the valid 10 and 16, contradicting its own comment ("Raise Error if
quantization bits does not equal 10 or 16"): the claim is right and
encoder.py's guard is a slip (`or` instead of `and`). -/
theorem C1_bits_check :
    (∀ b : ℤ, encoderFulloctreeGuard b = true) ∧
    fulloctree_decomposition_mesh ⟨1, 7, 5⟩ Ctriv meshCube []
      = (⟨[], []⟩, some Err.assertionError) ∧
    (fulloctree_decomposition_mesh p4 Ctriv meshCube []).2 = none ∧
    (fulloctree_decomposition_mesh ⟨1, 10, 5⟩ Ctriv meshCube []).2 = none := by
  refine ⟨?_, ?_, ?_, ?_⟩
  · intro b
    by_cases hb : b = 10
    · subst hb; decide
    · simp [encoderFulloctreeGuard, hb]
  · with_unfolding_all decide
  · with_unfolding_all decide
  · with_unfolding_all decide

/-- C6: for the valid bit widths 10 and 16, `upper_bound = 2^bits - 1`, and
every quantized component (at the engine's call sites, where
`fragment_shape = 1`) lies in `[0, 2^bits - 1]` for every input value,
including values on or outside the cell boundary — the clamp saturates
instead of wrapping.  The lower bound 0 holds by construction (`quantizeVal`
lands in ℕ). -/
theorem C6_quantizer_range (bits : ℕ) (h : bits = 10 ∨ bits = 16)
    (fo io : ℚ) :
    (mkQuantize fo 1 io bits).upper_bound = 2 ^ bits - 1 ∧
    ∀ v : ℚ, quantizeVal (mkQuantize fo 1 io bits) v ≤ 2 ^ bits - 1 := by
  have hub : (mkQuantize fo 1 io bits).upper_bound = 2 ^ bits - 1 := by
    rcases h with h | h <;> subst h <;> rfl
  exact ⟨hub, fun v => hub ▸ quantizeVal_le (mkQuantize fo 1 io bits) v⟩

/-- C6 witness: the bounds evaluated at `bits = 10`, cell origin 0 and the
out-of-range input 5/2. -/
theorem C6_quantizer_range_witness :
    (mkQuantize 0 1 0 10).upper_bound = 2 ^ 10 - 1 ∧
    quantizeVal (mkQuantize 0 1 0 10) (5 / 2) ≤ 2 ^ 10 - 1 :=
  ⟨(C6_quantizer_range 10 (Or.inl rfl) 0 0).1,
   (C6_quantizer_range 10 (Or.inl rfl) 0 0).2 (5 / 2)⟩

/-- C7 counterexample: the claim says the scaled value is rounded to the
nearest integer before clamping, i.e. `clamp(0, ub, round(scale*(v+offset)))`.
At `bits = 10`, cell origin 0 and `v = 1/4092` the scaled value is
`1023 * (1/4092 + 1/2046) = 3/4`: the code truncates it to 0 while the
claimed formula rounds it to 1. -/
theorem C7_counterexample :
    quantizeVal (mkQuantize 0 1 0 10) (1 / 4092) = 0 ∧
    quantizeSpecRound (mkQuantize 0 1 0 10) (1 / 4092) = 1 ∧
    quantizeVal (mkQuantize 0 1 0 10) (1 / 4092)
      ≠ quantizeSpecRound (mkQuantize 0 1 0 10) (1 / 4092) := by
  with_unfolding_all decide

/-- C7 amended: the quantizer returns
`clamp(0, upper_bound, floor(scale * (v + offset)))` — the scaled value is
truncated, not rounded; rounding of `scale * v` is achieved only implicitly
because `offset` already carries the `0.5/scale` term. -/
theorem C7_truncating_clamp (q : Quantize) (v : ℚ) :
    quantizeVal q v = quantizeFloorClamp q v := by
  unfold quantizeVal quantizeFloorClamp clampSpec
  rw [floor_min, floor_max, Int.floor_natCast]
  have h0 : Int.floor ((0 : ℚ)) = (0 : ℤ) := by norm_num
  rw [h0]
  rcases le_total (Int.floor (q.scale * (v + q.offset))) 0 with h | h <;>
    rcases le_total (Int.floor (q.scale * (v + q.offset))) (q.upper_bound : ℤ) with h' | h' <;>
      simp [min_def, max_def] <;> omega

/-- C9: the array-taking entry point `density_decomposition` in mesh.py calls
`density_decomposition_mesh` by keyword without supplying the required
`directory` parameter, so for every input Python raises `TypeError` at the
call itself, before any decomposition work or file I/O; no call through this
entry point can produce output files. -/
theorem C9_density_entrypoint_typeerror (p : DensityParams) (C : Collab)
    (vertices : List Vec3) (faces : List (ℕ × ℕ × ℕ)) (fuel : ℕ) :
    density_decomposition p C vertices faces fuel = .error .typeError := by
  have h : keywordCallBinds densityDecompositionMeshParams
      densityDecompositionCallKeywords = false := by decide
  simp [density_decomposition, h]

/-- C10: when every vertex shares the same coordinate on an axis, the numpy
expression `scale/(maxval-minval)` divides by zero on that axis and the
subsequent multiplication by `(v - minval) = 0` produces nan, so `scale_mesh`
returns (it does not raise) with every coordinate on that axis non-finite.
`scaleAxisFloat` is `scale_mesh`'s action on the coordinate list of any one
axis (the numpy operations are componentwise). -/
theorem C10_scale_mesh_flat_axis (coords : List ℚ) (scale c : ℚ)
    (h1 : coords ≠ []) (h2 : ∀ x ∈ coords, x = c) :
    scaleAxisFloat coords scale = some (coords.map (fun _ => QF.nan)) := by
  unfold scaleAxisFloat
  rw [listMax_const h1 h2, listMin_const h1 h2]
  have hd : ∀ x ∈ coords,
      qfMul (qfDiv (QF.fin scale) (QF.fin (c - c))) (QF.fin (x - c)) = QF.nan := by
    intro x hx
    rw [h2 x hx, sub_self]
    rcases lt_trichotomy scale 0 with hs | hs | hs
    · simp [qfDiv, qfMul, hs, asymm hs]
    · simp [qfDiv, qfMul, hs]
    · simp [qfDiv, qfMul, hs, asymm hs]
  exact congrArg some (List.map_congr_left hd)

/-- C10 witness: a two-vertex axis-flat coordinate list, scale 1. -/
theorem C10_scale_mesh_flat_axis_witness :
    scaleAxisFloat [2, 2] 1 = some [QF.nan, QF.nan] := by
  have h := C10_scale_mesh_flat_axis [2, 2] 1 2 (by simp)
    (by intro x hx; simp at hx; exact hx)
  simpa using h

/-! ## Structure of the writer loop -/

/-- Manifest contents already in the file are only appended to by the LOD
loop: running from a state whose manifest carries an extra front segment `a`
yields the same writes after `a`. -/
theorem runLods_shift (f : ℕ → Option LodBlock) :
    ∀ (lods : List ℕ) (a : List Token) (s : WriterState),
      runLods f lods ⟨a ++ s.manifest, s.fragment⟩
        = (⟨a ++ (runLods f lods s).1.manifest,
            (runLods f lods s).1.fragment⟩, (runLods f lods s).2) := by
  intro lods
  induction lods with
  | nil => intro a s; rfl
  | cons i rest ih =>
      intro a s
      cases hf : f i with
      | none => simp [runLods, hf]
      | some b =>
          simp only [runLods, hf]
          have h := ih a ⟨s.manifest ++ blockTokens b, s.fragment ++ b.frag⟩
          simpa [List.append_assoc] using h

/-- The whole run only appends to the manifest file it was given (mode 'ab'),
writes the fragment file from scratch (mode 'wb'), and succeeds or fails
independently of the previous manifest contents. -/
theorem fulloctree_run_init (p : FulloctreeParams) (C : Collab) (m : Mesh)
    (init : List Token) :
    fulloctree_decomposition_mesh p C m init
      = (⟨init ++ (fulloctree_decomposition_mesh p C m []).1.manifest,
          (fulloctree_decomposition_mesh p C m []).1.fragment⟩,
         (fulloctree_decomposition_mesh p C m []).2) := by
  unfold fulloctree_decomposition_mesh
  by_cases hb : p.quantization_bits = 10 ∨ p.quantization_bits = 16
  · rw [if_pos hb, if_pos hb]
    cases hmax : vecMax m.vertices with
    | none => cases hmin : vecMin m.vertices <;> simp
    | some maxv =>
        cases hmin : vecMin m.vertices with
        | none => simp
        | some minv =>
            have h := runLods_shift
              (fulloctreeLodResult C p.quantization_bits p.compression_level
                (C.clean m).faces.length p.num_lods (C.clean m))
              ((List.range p.num_lods).reverse) init
              ⟨headerTokens p.num_lods maxv minv, []⟩
            simpa using h
  · rw [if_neg hb, if_neg hb]; simp

/-- C4 amended: re-running the full-octree decomposition on the same mesh
with the same parameters reproduces the fragment file byte for byte, but the
manifest file is opened in append mode ('ab'), so the second run appends a
second identical copy: after two runs the manifest holds the first run's
contents twice.  (Determinism itself holds; byte-identity of the manifest
does not.) -/
theorem C4_second_run_appends (p : FulloctreeParams) (C : Collab) (m : Mesh) :
    fulloctree_decomposition_mesh p C m
        (fulloctree_decomposition_mesh p C m []).1.manifest
      = (⟨(fulloctree_decomposition_mesh p C m []).1.manifest
            ++ (fulloctree_decomposition_mesh p C m []).1.manifest,
          (fulloctree_decomposition_mesh p C m []).1.fragment⟩,
         (fulloctree_decomposition_mesh p C m []).2) :=
  fulloctree_run_init p C m (fulloctree_decomposition_mesh p C m []).1.manifest

/-- C4 counterexample: with a concrete mesh, parameters and collaborator, the
first run succeeds, the second run's fragment file equals the first's, but
the second run's manifest file differs from the first's (it is twice as
long), so re-running is not idempotent at the level of file contents. -/
theorem C4_counterexample :
    (fulloctree_decomposition_mesh p4 Ctriv meshCube []).2 = none ∧
    (fulloctree_decomposition_mesh p4 Ctriv meshCube
        (fulloctree_decomposition_mesh p4 Ctriv meshCube []).1.manifest).1.fragment
      = (fulloctree_decomposition_mesh p4 Ctriv meshCube []).1.fragment ∧
    (fulloctree_decomposition_mesh p4 Ctriv meshCube
        (fulloctree_decomposition_mesh p4 Ctriv meshCube []).1.manifest).1.manifest
      ≠ (fulloctree_decomposition_mesh p4 Ctriv meshCube []).1.manifest := by
  with_unfolding_all decide

/-- The LOD loop never raises the `assert` error (only `scale_mesh`'s
ValueError can stop it). -/
theorem runLods_err_ne_assert (f : ℕ → Option LodBlock) :
    ∀ (lods : List ℕ) (s : WriterState),
      (runLods f lods s).2 ≠ some Err.assertionError := by
  intro lods
  induction lods with
  | nil => intro s; simp [runLods]
  | cons i rest ih =>
      intro s
      cases hf : f i with
      | none => simp [runLods, hf]
      | some b => simp only [runLods, hf]; exact ih _

/-- The header token count: 3 (chunk shape) + 3 (grid origin) + 1 (num_lods)
+ L (scales) + 3L (vertex offsets) + L (fragment counts). -/
theorem headerTokens_length (L : ℕ) (maxv minv : Vec3) :
    (headerTokens L maxv minv).length = 7 + 5 * L := by
  simp [headerTokens]
  ring

/-- C8 amended: a mesh with zero faces after cleaning raises no error before
file I/O — the code has no zero-face check at all.  With a valid bit width
and a nonempty vertex set the decomposition creates both files and writes the
complete manifest header (appended after the previous contents `init`)
before the first simplification is even attempted; in particular no
configuration (assert) error is raised. -/
theorem C8_header_written_despite_zero_faces (p : FulloctreeParams)
    (C : Collab) (m : Mesh) (init : List Token) (maxv minv : Vec3)
    (hb : p.quantization_bits = 10 ∨ p.quantization_bits = 16)
    (hmax : vecMax m.vertices = some maxv)
    (hmin : vecMin m.vertices = some minv)
    (_hfaces : (C.clean m).faces.length = 0) :
    ((fulloctree_decomposition_mesh p C m init).1.manifest).take
        (init.length + (7 + 5 * p.num_lods))
      = init ++ headerTokens p.num_lods maxv minv ∧
    (fulloctree_decomposition_mesh p C m init).2 ≠ some Err.assertionError := by
  unfold fulloctree_decomposition_mesh
  rw [if_pos hb, hmax, hmin]
  dsimp only
  constructor
  · have hshift := runLods_shift
      (fulloctreeLodResult C p.quantization_bits p.compression_level
        (C.clean m).faces.length p.num_lods (C.clean m))
      ((List.range p.num_lods).reverse) (init ++ headerTokens p.num_lods maxv minv)
      ⟨[], []⟩
    simp only [List.append_nil] at hshift
    rw [hshift]
    have hlen : (init ++ headerTokens p.num_lods maxv minv).length
        = init.length + (7 + 5 * p.num_lods) := by
      rw [List.length_append, headerTokens_length]
    rw [← hlen]
    exact List.take_left _ _
  · exact runLods_err_ne_assert _ _ _

/-- C8 witness: the amended statement evaluated at the concrete zero-face
mesh `mesh8`, one LOD and 16-bit quantization. -/
theorem C8_header_written_despite_zero_faces_witness :
    ((fulloctree_decomposition_mesh p4 Ctriv mesh8 []).1.manifest).take
        (0 + (7 + 5 * p4.num_lods))
      = [] ++ headerTokens p4.num_lods (1, 1, 1) (0, 0, 0) ∧
    (fulloctree_decomposition_mesh p4 Ctriv mesh8 []).2
      ≠ some Err.assertionError :=
  C8_header_written_despite_zero_faces p4 Ctriv mesh8 [] (1, 1, 1) (0, 0, 0)
    (Or.inr rfl) (by with_unfolding_all decide) (by with_unfolding_all decide)
    (by with_unfolding_all decide)

/-- C8 counterexample: for the concrete zero-face mesh the run raises no
error at all and both output files end up nonempty — the claim that a
geometry/configuration error is raised before any file is created fails. -/
theorem C8_counterexample :
    (Ctriv.clean mesh8).faces.length = 0 ∧
    (fulloctree_decomposition_mesh p4 Ctriv mesh8 []).2 = none ∧
    (fulloctree_decomposition_mesh p4 Ctriv mesh8 []).1.manifest ≠ [] ∧
    (fulloctree_decomposition_mesh p4 Ctriv mesh8 []).1.fragment ≠ [] := by
  with_unfolding_all decide

/-! ## The shape of one LOD block -/

/-- A fold threading three append-accumulators equals the flat concatenation
of the per-element contributions. -/
theorem foldl_app3 {β α₁ α₂ α₃ : Type} (p : β → List α₁) (q : β → List α₂)
    (r : β → List α₃) :
    ∀ (l : List β) (a : List α₁ × List α₂ × List α₃),
      l.foldl (fun a e => (a.1 ++ p e, a.2.1 ++ q e, a.2.2 ++ r e)) a
        = (a.1 ++ l.flatMap p, a.2.1 ++ l.flatMap q, a.2.2 ++ l.flatMap r) := by
  intro l
  induction l with
  | nil => intro a; simp
  | cons x xs ih => intro a; simp [List.foldl_cons, ih, List.append_assoc]

/-- Binding a singleton-producing function is a map. -/
theorem flatMap_single {α γ : Type} (l : List α) (f : α → γ) :
    l.flatMap (fun z => [f z]) = l.map f := by
  induction l with
  | nil => rfl
  | cons x xs ih => simp [ih]

/-- Mapping over a concatenation of blocks maps inside each block. -/
theorem map_flatMap' {α β γ : Type} (l : List α) (g : α → List β) (f : β → γ) :
    (l.flatMap g).map f = l.flatMap (fun a => (g a).map f) := by
  induction l with
  | nil => rfl
  | cons x xs ih => simp [ih]

/-- Concatenation of blocks is associative with a further concatenation. -/
theorem flatMap_flatMap' {α β γ : Type} (l : List α) (g : α → List β)
    (h : β → List γ) :
    (l.flatMap g).flatMap h = l.flatMap (fun a => (g a).flatMap h) := by
  induction l with
  | nil => rfl
  | cons x xs ih => simp [ih]

/-- Concatenating blocks produced from a mapped list. -/
theorem map_then_flatMap {α β γ : Type} (l : List α) (f : α → β)
    (h : β → List γ) :
    (l.map f).flatMap h = l.flatMap (fun a => h (f a)) := by
  induction l with
  | nil => rfl
  | cons x xs ih => simp [ih]

/-- The nested cell loop produces the cells in `cellList` order, one recorded
length per cell, and the concatenation of each cell's fragment bytes. -/
theorem lodLoop_eq (n : ℕ) (step : Cell → ℕ × List ℕ) :
    lodLoop n step
      = (cellList n, (cellList n).map (fun c => (step c).1),
         (cellList n).flatMap (fun c => (step c).2)) := by
  unfold lodLoop cellList
  simp only [foldl_app3]
  simp [flatMap_single, map_flatMap', flatMap_flatMap', map_then_flatMap,
    List.map_map, Function.comp_def]

/-- One LOD visits `n^3` cells. -/
theorem cellList_length (n : ℕ) : (cellList n).length = n ^ 3 := by
  simp only [cellList, List.length_flatMap, List.map_map, Function.comp_def,
    List.length_map, List.length_range]
  simp only [List.map_const', List.length_range, List.sum_replicate,
    smul_eq_mul]
  ring

/-- A successful writer loop appends exactly the blocks of its levels, in
order, to both files, and every level's block exists. -/
theorem runLods_success (f : ℕ → Option LodBlock) :
    ∀ (lods : List ℕ) (s : WriterState), (runLods f lods s).2 = none →
      ((runLods f lods s).1.manifest
        = s.manifest ++ lods.flatMap (fun i => blockTokens (lodResultD f i))) ∧
      ((runLods f lods s).1.fragment
        = s.fragment ++ lods.flatMap (fun i => (lodResultD f i).frag)) ∧
      ∀ i ∈ lods, (f i).isSome := by
  intro lods
  induction lods with
  | nil => intro s h; simp [runLods]
  | cons i rest ih =>
      intro s h
      cases hf : f i with
      | none => simp only [runLods, hf] at h; exact absurd h (by simp)
      | some b =>
          simp only [runLods, hf] at h ⊢
          obtain ⟨h1, h2, h3⟩ := ih _ h
          refine ⟨?_, ?_, ?_⟩
          · rw [h1]; simp [lodResultD, hf, List.append_assoc]
          · rw [h2]; simp [lodResultD, hf, List.append_assoc]
          · intro j hj
            rcases List.mem_cons.mp hj with rfl | hj'
            · simp [hf]
            · exact h3 j hj'

/-- On a level whose `scale_mesh` succeeded, the block is the cell loop run on
that level's scaled mesh. -/
theorem fulloctreeLodResult_eq (C : Collab) (bits clevel nf L : ℕ)
    (cleaned : Mesh) (i : ℕ)
    (h : (fulloctreeLodResult C bits clevel nf L cleaned i).isSome) :
    lodResultD (fulloctreeLodResult C bits clevel nf L cleaned) i
      = mkLodBlock i
          (fulloctreeStep C bits clevel (fulloctreeScaled C nf L cleaned i)) := by
  unfold fulloctreeLodResult at h ⊢
  unfold lodResultD fulloctreeScaled
  dsimp only at h ⊢
  cases hs : scale_mesh (C.clean (C.simplify cleaned (numFacesLeft nf L i)))
      ((2 : ℚ) ^ i) with
  | none => rw [hs] at h; simp at h
  | some sm => simp

/-- C5: in the full-octree scheme the manifest is the previous contents, then
the header, then one block per LOD written for `i = num_lods - 1` down to `0`
(`(List.range num_lods).reverse`); every LOD's block holds exactly `8^i`
position entries — the full grid in nested x/y/z visitation order — and
exactly `8^i` length entries, one per cell regardless of occupancy, and a
cell whose clipped sub-mesh is empty records byte length 0. -/
theorem C5_manifest_structure (p : FulloctreeParams) (C : Collab) (m : Mesh)
    (init : List Token) (maxv minv : Vec3)
    (hmax : vecMax m.vertices = some maxv)
    (hmin : vecMin m.vertices = some minv)
    (hok : (fulloctree_decomposition_mesh p C m init).2 = none) :
    ((fulloctree_decomposition_mesh p C m init).1.manifest
        = init ++ headerTokens p.num_lods maxv minv
          ++ ((List.range p.num_lods).reverse).flatMap (fun i =>
              blockTokens (lodResultD (fulloctreeLodResult C
                p.quantization_bits p.compression_level
                (C.clean m).faces.length p.num_lods (C.clean m)) i))) ∧
    (∀ i < p.num_lods,
      (lodResultD (fulloctreeLodResult C p.quantization_bits
          p.compression_level (C.clean m).faces.length p.num_lods
          (C.clean m)) i).pos = cellList (2 ^ i) ∧
      (lodResultD (fulloctreeLodResult C p.quantization_bits
          p.compression_level (C.clean m).faces.length p.num_lods
          (C.clean m)) i).pos.length = 8 ^ i ∧
      (lodResultD (fulloctreeLodResult C p.quantization_bits
          p.compression_level (C.clean m).faces.length p.num_lods
          (C.clean m)) i).off.length = 8 ^ i ∧
      (lodResultD (fulloctreeLodResult C p.quantization_bits
          p.compression_level (C.clean m).faces.length p.num_lods
          (C.clean m)) i).off
        = (cellList (2 ^ i)).map (fun c =>
            (fulloctreeStep C p.quantization_bits p.compression_level
              (fulloctreeScaled C (C.clean m).faces.length p.num_lods
                (C.clean m) i) c).1)) ∧
    (∀ (scaledm : Mesh) (c : Cell),
      (cellMesh C scaledm c).vertices.length = 0 →
      fulloctreeStep C p.quantization_bits p.compression_level scaledm c
        = (0, [])) := by
  have hb : p.quantization_bits = 10 ∨ p.quantization_bits = 16 := by
    by_contra hb
    unfold fulloctree_decomposition_mesh at hok
    rw [if_neg hb] at hok
    simp at hok
  have hpow : ∀ i : ℕ, (2 ^ i) ^ 3 = 8 ^ i := by
    intro i
    rw [← pow_mul, mul_comm, pow_mul]
    norm_num
  unfold fulloctree_decomposition_mesh at hok ⊢
  rw [if_pos hb, hmax, hmin] at hok ⊢
  dsimp only at hok ⊢
  obtain ⟨h1, _h2, h3⟩ := runLods_success _ _ _ hok
  refine ⟨?_, ?_, ?_⟩
  · rw [h1]
  · intro i hi
    have hsome : (fulloctreeLodResult C p.quantization_bits
        p.compression_level (C.clean m).faces.length p.num_lods
        (C.clean m) i).isSome :=
      h3 i (by simp [List.mem_reverse, List.mem_range]; omega)
    rw [fulloctreeLodResult_eq C p.quantization_bits p.compression_level
      (C.clean m).faces.length p.num_lods (C.clean m) i hsome]
    unfold mkLodBlock
    rw [lodLoop_eq]
    refine ⟨rfl, ?_, ?_, rfl⟩
    · rw [cellList_length]; exact hpow i
    · rw [List.length_map, cellList_length]; exact hpow i
  · intro scaledm c hc
    simp [fulloctreeStep, hc]

/-- C5 witness: the block shape evaluated on the concrete one-LOD run. -/
theorem C5_manifest_structure_witness :
    (lodResultD (fulloctreeLodResult Ctriv p4.quantization_bits
        p4.compression_level (Ctriv.clean meshCube).faces.length p4.num_lods
        (Ctriv.clean meshCube)) 0).pos = cellList (2 ^ 0) ∧
    (lodResultD (fulloctreeLodResult Ctriv p4.quantization_bits
        p4.compression_level (Ctriv.clean meshCube).faces.length p4.num_lods
        (Ctriv.clean meshCube)) 0).off.length = 8 ^ 0 :=
  have h := C5_manifest_structure p4 Ctriv meshCube [] (1, 1, 1) (0, 0, 0)
    (by with_unfolding_all decide) (by with_unfolding_all decide)
    (by with_unfolding_all decide)
  ⟨(h.2.1 0 (by decide)).1, (h.2.1 0 (by decide)).2.2.1⟩

/-! ## The density recursion -/

/-- The density loop returns the first level at or after its start whose
cells are all at or below the threshold; every earlier level it visited had a
cell above the threshold. -/
theorem gmdLoop_spec (verts : List Vec3) (minv maxv : Vec3) (mv : ℕ) :
    ∀ (fuel lod L : ℕ), gmdLoop verts minv maxv mv fuel lod = some L →
      allBelow verts minv maxv mv L = true ∧ lod ≤ L ∧
      ∀ n, lod ≤ n → n < L → allBelow verts minv maxv mv n = false := by
  intro fuel
  induction fuel with
  | zero => intro lod L h; simp [gmdLoop] at h
  | succ k ih =>
      intro lod L h
      simp only [gmdLoop] at h
      by_cases hb : allBelow verts minv maxv mv lod = true
      · rw [if_pos hb] at h
        have hL : lod = L := by injection h
        subst hL
        exact ⟨hb, le_refl _, fun n h1 h2 => absurd h1 (by omega)⟩
      · rw [if_neg hb] at h
        obtain ⟨h1, h2, h3⟩ := ih (lod + 1) L h
        refine ⟨h1, by omega, ?_⟩
        intro n hn1 hn2
        rcases eq_or_lt_of_le hn1 with rfl | hlt
        · exact Bool.eq_false_iff.mpr hb
        · exact h3 n (by omega) hn2

/-- C3 amended: the density recursion does halt at the first level (≥ 1)
whose cells are all at or below the threshold, but the halting level's
dictionary entry is deleted before returning (`del dict_count[lod]`): the
returned `num_lods` equals that level's index, so the deepest retained LOD of
the hierarchy is the previous one, and whenever `num_lods ≥ 2` that last
retained LOD still contains at least one cell whose vertex count exceeds the
threshold (a cell flagged "needs subdivision"). -/
theorem C3_halting_lod_deleted (verts : List Vec3) (minv maxv : Vec3)
    (mv fuel L : ℕ) (hmv : ¬ verts.length < mv)
    (hmax : vecMax verts = some maxv) (hmin : vecMin verts = some minv)
    (h : gmdNumLods verts mv fuel = some L) :
    allBelow verts minv maxv mv L = true ∧ 1 ≤ L ∧
    (2 ≤ L → ∃ c ∈ cellList (2 ^ (L - 1)),
      gmdFlag verts minv maxv mv (L - 1) c = true) := by
  rw [gmdNumLods, if_neg hmv, hmax, hmin] at h
  dsimp only at h
  obtain ⟨h1, h2, h3⟩ := gmdLoop_spec verts minv maxv mv fuel 1 L h
  refine ⟨h1, h2, ?_⟩
  intro hL
  have hlast : allBelow verts minv maxv mv (L - 1) = false :=
    h3 (L - 1) (by omega) (by omega)
  rw [allBelow] at hlast
  rw [List.all_eq_false] at hlast
  obtain ⟨c, hc, hcc⟩ := hlast
  refine ⟨c, hc, ?_⟩
  rw [gmdFlag, if_neg (by omega : ¬ L - 1 = 0)]
  simp only [decide_eq_true_eq] at hcc ⊢
  omega

/-- C3 counterexample: with threshold 1 and the vertices `verts3`, the
recursion stops at level 2 (all level-2 cells hold at most one vertex), but
`num_lods = 2` means the retained hierarchy is levels 0 and 1, and the last
retained LOD (index 1) contains cell (0,0,0) holding the 2 > 1 vertices
(0,0,0) and (3,3,3) — it is flagged "needs subdivision", so the halting
level did not become the finest level and the last LOD does contain an
above-threshold cell, contrary to the claim. -/
theorem C3_counterexample :
    gmdNumLods verts3 1 4 = some 2 ∧
    vecMax verts3 = some (8, 8, 8) ∧ vecMin verts3 = some (0, 0, 0) ∧
    1 < cellCount verts3 (0, 0, 0) (8, 8, 8) 1 (0, 0, 0) ∧
    gmdFlag verts3 (0, 0, 0) (8, 8, 8) 1 1 (0, 0, 0) = true := by
  with_unfolding_all decide

/-- C3 witness: the amended statement evaluated on `verts3`. -/
theorem C3_halting_lod_deleted_witness :
    allBelow verts3 (0, 0, 0) (8, 8, 8) 1 2 = true ∧ 1 ≤ 2 ∧
    (2 ≤ 2 → ∃ c ∈ cellList (2 ^ (2 - 1)),
      gmdFlag verts3 (0, 0, 0) (8, 8, 8) 1 (2 - 1) c = true) :=
  C3_halting_lod_deleted verts3 (0, 0, 0) (8, 8, 8) 1 4 2 (by decide)
    (by with_unfolding_all decide) (by with_unfolding_all decide)
    (by with_unfolding_all decide)

/-- C2 amended: in the adaptive scheme the materialization polarity is the
reverse of the claim.  A cell's bytes are encoded and appended exactly when
its dictionary flag is `True`, and at every LOD `≥ 1` the flag is `True` iff
the cell's vertex count exceeds `minimum_vertices` — i.e. iff the cell needed
further subdivision (at LOD 0 the root is always flagged).  Every unflagged
(leaf) cell — vertex count at or below the threshold — is recorded with byte
length 0 and contributes no bytes. -/
theorem C2_flagged_cells_materialized (flagf : Cell → Bool) (C : Collab)
    (bits clevel i : ℕ) (scaled : Mesh) :
    ((mkLodBlock i (densityStep flagf C bits clevel scaled)).off
        = (cellList (2 ^ i)).map
            (fun c => (densityStep flagf C bits clevel scaled c).1)) ∧
    ((mkLodBlock i (densityStep flagf C bits clevel scaled)).frag
        = (cellList (2 ^ i)).flatMap
            (fun c => (densityStep flagf C bits clevel scaled c).2)) ∧
    (∀ c : Cell, flagf c = false →
      densityStep flagf C bits clevel scaled c = (0, [])) ∧
    (∀ c : Cell, (densityStep flagf C bits clevel scaled c).2 ≠ [] →
      flagf c = true) ∧
    (∀ (verts : List Vec3) (minv maxv : Vec3) (mv lod : ℕ) (c : Cell),
      1 ≤ lod →
      (gmdFlag verts minv maxv mv lod c = false
        ↔ cellCount verts minv maxv lod c ≤ mv)) := by
  refine ⟨?_, ?_, ?_, ?_, ?_⟩
  · simp [mkLodBlock, lodLoop_eq]
  · simp [mkLodBlock, lodLoop_eq]
  · intro c hc; simp [densityStep, hc]
  · intro c hc
    by_cases hf : flagf c = true
    · exact hf
    · have hf' : flagf c = false := Bool.eq_false_iff.mpr hf
      exact absurd (show (densityStep flagf C bits clevel scaled c).2 = []
        from by simp [densityStep, hf']) hc
  · intro verts minv maxv mv lod c hlod
    rw [gmdFlag, if_neg (by omega : ¬ lod = 0)]
    simp only [decide_eq_false_iff_not, not_lt]

/-- C2 counterexample: with threshold 1 and `verts9`, the hierarchy has three
levels, LOD 1 is not the last, and its cell (0,0,0) holds 2 > 1 vertices, so
it is flagged "needs subdivision" — yet the writer records byte length 1 for
it and appends its encoded byte to the fragment stream, while the claim says
such a cell is recorded with length 0 and contributes nothing.  The complete
run writes one fragment per flagged nonempty cell (LODs 2, 1, 0). -/
theorem C2_counterexample :
    gmdNumLods verts9 1 5 = some 3 ∧
    vecMax verts9 = some (8, 8, 8) ∧ vecMin verts9 = some (0, 0, 0) ∧
    1 < cellCount verts9 (0, 0, 0) (8, 8, 8) 1 (0, 0, 0) ∧
    gmdFlag verts9 (0, 0, 0) (8, 8, 8) 1 1 (0, 0, 0) = true ∧
    (densityLodResult Ctriv 16 5 1 3 mesh9
        (gmdFlag verts9 (0, 0, 0) (8, 8, 8) 1) 1).map LodBlock.off
      = some [1, 0, 0, 0, 0, 0, 0, 0] ∧
    (densityLodResult Ctriv 16 5 1 3 mesh9
        (gmdFlag verts9 (0, 0, 0) (8, 8, 8) 1) 1).map LodBlock.frag
      = some [9] ∧
    (density_decomposition_mesh ⟨1, 16, 5⟩ Ctriv mesh9 [] 5).2 = none ∧
    (density_decomposition_mesh ⟨1, 16, 5⟩ Ctriv mesh9 [] 5).1.fragment
      = [9, 9, 9] := by
  with_unfolding_all decide

/-- C2 witness: an unflagged cell records length 0 and no bytes. -/
theorem C2_flagged_cells_materialized_witness :
    densityStep (fun _ => false) Ctriv 16 5 meshCube (0, 0, 0) = (0, []) :=
  (C2_flagged_cells_materialized (fun _ => false) Ctriv 16 5 0 meshCube).2.2.1
    (0, 0, 0) rfl

end Neurogen
